import Mathlib

/-!
Verification of the in-place reversible translation engine of
`src/contexts/TranslationContext.tsx`.

Strings are embedded as lists of characters (`Str`), so that the
character-level predicates of the source (the JavaScript regular
expression `^[^\w\s؀-ۿ]*$`, `String.prototype.trim`, and the
whitespace-capturing matches `^\s*` / `\s*$`) become executable Lean
functions, and the DOM subtree handed to `translateElementsRecursively`
is embedded as the tree `DNode` of element nodes (tag plus ordered
children) and text nodes (mutable payload, modelled functionally).
-/

namespace TranslationContext

/-- A JavaScript string, embedded as its list of characters. -/
abbrev Str := List Char

/-- The character class `\s` of JavaScript regular expressions (also the
set of characters removed by `String.prototype.trim`): tab, line feed,
vertical tab, form feed, carriage return, space, no-break space, ogham
space mark, the ` `–` ` spaces, line separator, paragraph
separator, narrow no-break space, medium mathematical space, ideographic
space and the byte-order mark. -/
def jsIsSpace (c : Char) : Bool :=
  let n := c.toNat
  n = 0x9 || n = 0xa || n = 0xb || n = 0xc || n = 0xd || n = 0x20 ||
  n = 0xa0 || n = 0x1680 || (0x2000 ≤ n && n ≤ 0x200a) ||
  n = 0x2028 || n = 0x2029 || n = 0x202f || n = 0x205f ||
  n = 0x3000 || n = 0xfeff

/-- The character class `\w` of JavaScript regular expressions:
`[A-Za-z0-9_]`. Note that the decimal digits belong to it. -/
def isWordChar (c : Char) : Bool :=
  let n := c.toNat
  (0x41 ≤ n && n ≤ 0x5a) || (0x61 ≤ n && n ≤ 0x7a) ||
  (0x30 ≤ n && n ≤ 0x39) || n = 0x5f

/-- The character range `؀-ۿ` of the exclusion pattern: the
Arabic Unicode block, the target script of the translation. -/
def isArabicBlock (c : Char) : Bool :=
  0x600 ≤ c.toNat && c.toNat ≤ 0x6ff

/-- The test `/^[^\w\s؀-ۿ]*$/.test s` of line 44 of the
source: every character of `s` is outside `\w`, outside `\s` and
outside the Arabic block. -/
def symbolOnly (s : Str) : Bool :=
  s.all (fun c => !(isWordChar c) && !(jsIsSpace c) && !(isArabicBlock c))

/-- The capture `s.match(/^\s*/)?.[0] || ''` of line 62: the leading
whitespace run. -/
def leadingSpace (s : Str) : Str := s.takeWhile jsIsSpace

/-- The capture `s.match(/\s*$/)?.[0] || ''` of line 63: the trailing
whitespace run. -/
def trailingSpace (s : Str) : Str := (s.reverse.takeWhile jsIsSpace).reverse

/-- The call `s.trim()`: the payload with its leading and trailing whitespace
runs removed. -/
def jsTrim (s : Str) : Str :=
  ((s.dropWhile jsIsSpace).reverse.dropWhile jsIsSpace).reverse

/-- A node of the borrowed document subtree: a text node with its string
payload, or an element node with its tag name and ordered child list. -/
inductive DNode where
  | text (payload : Str) : DNode
  | elem (tag : String) (children : List DNode) : DNode

mutual

/-- Decidable equality of document nodes. -/
def DNode.deq : (a b : DNode) → Decidable (a = b)
  | .text p, .text q =>
    match decEq p q with
    | isTrue h => isTrue (by rw [h])
    | isFalse h => isFalse (by intro hh; cases hh; exact h rfl)
  | .text _, .elem _ _ => isFalse (by intro h; cases h)
  | .elem _ _, .text _ => isFalse (by intro h; cases h)
  | .elem t cs, .elem u ds =>
    match decEq t u, DNode.deqList cs ds with
    | isTrue h1, isTrue h2 => isTrue (by rw [h1, h2])
    | isFalse h1, _ => isFalse (by intro hh; cases hh; exact h1 rfl)
    | _, isFalse h2 => isFalse (by intro hh; cases hh; exact h2 rfl)

/-- Decidable equality of document node lists. -/
def DNode.deqList : (a b : List DNode) → Decidable (a = b)
  | [], [] => isTrue rfl
  | [], _ :: _ => isFalse (by intro h; cases h)
  | _ :: _, [] => isFalse (by intro h; cases h)
  | a :: as, b :: bs =>
    match DNode.deq a b, DNode.deqList as bs with
    | isTrue h1, isTrue h2 => isTrue (by rw [h1, h2])
    | isFalse h1, _ => isFalse (by intro hh; cases hh; exact h1 rfl)
    | _, isFalse h2 => isFalse (by intro hh; cases hh; exact h2 rfl)

end

instance : DecidableEq DNode := DNode.deq

/-- The guard of lines 32–34: `SCRIPT`, `STYLE` and `NOSCRIPT` elements
are skipped entirely, subtree included. -/
def excludedTag (tag : String) : Bool :=
  tag = "SCRIPT" || tag = "STYLE" || tag = "NOSCRIPT"

/-- The body of the text-node loop (lines 40–69) applied to one text
payload. The lookup in the chosen direction is `tr`; a `none` result
embeds a thrown exception, which the `try`/`catch` of lines 48–68
swallows, leaving the fragment unmodified. -/
def processText (tr : Str → Option Str) (payload : Str) : Str :=
  let currentText := jsTrim payload
  if currentText = [] then payload
  else if currentText.length < 1 ∨ symbolOnly currentText = true then payload
  else
    match tr currentText with
    | none => payload
    | some translatedText =>
      if translatedText = currentText then payload
      else leadingSpace payload ++ translatedText ++ trailingSpace payload

mutual

/-- The function `translateElementsRecursively` (lines 30–76) as a pure tree
transformation: the direction choice of lines 49–51 is baked into the
single lookup `tr`. A `SCRIPT`/`STYLE`/`NOSCRIPT` element is returned
untouched; otherwise every text child is processed by `processText` and
every element child is walked recursively. -/
def walk (tr : Str → Option Str) : DNode → DNode
  | .text payload => .text (processText tr payload)
  | .elem tag children =>
    if excludedTag tag then .elem tag children
    else .elem tag (walkList tr children)

/-- The two child loops of lines 37–75, fused: text children get the
leaf text pass, element children are walked recursively. -/
def walkList (tr : Str → Option Str) : List DNode → List DNode
  | [] => []
  | c :: rest => walk tr c :: walkList tr rest

end

/-- The node reached from a root by taking the child of the given index
at each step: the position of a subtree inside the borrowed tree. -/
def nodeAt : DNode → List Nat → Option DNode
  | n, [] => some n
  | .text _, _ :: _ => none
  | .elem _ cs, i :: p =>
    match cs[i]? with
    | some c => nodeAt c p
    | none => none

/-- The record of one fragment in the restoration map (lines 55–59):
the original trimmed text is stored exactly when the walk reaches the
mutation branch, i.e. when the lookup succeeds and returns a candidate
different from the trimmed payload. The generated key
`text-${Date.now()}-${Math.random()}` is nondeterministic and carries no
behavioural content; the record is embedded as the list of stored
original texts in visitation order. -/
def recordText (tr : Str → Option Str) (payload : Str) : List Str :=
  let currentText := jsTrim payload
  if currentText = [] then []
  else if currentText.length < 1 ∨ symbolOnly currentText = true then []
  else
    match tr currentText with
    | none => []
    | some translatedText =>
      if translatedText = currentText then [] else [currentText]

mutual

/-- The original texts stored by a forward walk over a subtree, in
visitation order (text children of an element before its element
children, as in the two loops of lines 37–75). -/
def collect (tr : Str → Option Str) : DNode → List Str
  | .text payload => recordText tr payload
  | .elem tag children =>
    if excludedTag tag then []
    else collectList tr children

/-- The stored original texts of a list of sibling nodes. -/
def collectList (tr : Str → Option Str) : List DNode → List Str
  | [] => []
  | c :: rest => collect tr c ++ collectList tr rest

end

/-- The state owned by `TranslationProvider` (lines 26–28) together with
the externally visible document state it mutates: the content root
walked by `translateElementsRecursively` and the `dir` and `lang`
attributes of the document root element (lines 91–92 and 98–99). -/
structure St where
  isTranslated : Bool
  isTranslating : Bool
  originalTexts : List Str
  content : DNode
  dir : String
  lang : String
deriving DecidableEq

/-- The function `translate` (lines 78–107) with the body of its `try` block — root
selection plus the awaited walk — abstracted as the fallible computation
`walkF`, returning the rewritten content root and the texts recorded for
the restoration map, or the exception that propagated past the walk. The
`catch` of lines 102–103 swallows the error; the `finally` of lines
104–106 clears the in-flight flag on every exit path. Attribute writes,
the mode flip and the restoration-map update happen only after the walk
returned (lines 91–94 and 98–100), so an error leaves them untouched. -/
def translateFallible (walkF : Bool → DNode → Except Unit (DNode × List Str))
    (st : St) : St :=
  if st.isTranslating then st
  else
    let st1 : St := { st with isTranslating := true }
    let st2 : St :=
      if st1.isTranslated then
        match walkF true st1.content with
        | .error _ => st1
        | .ok (c, _) =>
          { st1 with content := c, dir := "ltr", lang := "en",
                     isTranslated := false, originalTexts := [] }
      else
        match walkF false st1.content with
        | .error _ => st1
        | .ok (c, recs) =>
          { st1 with content := c, dir := "rtl", lang := "ar",
                     isTranslated := true,
                     originalTexts := st1.originalTexts ++ recs }
    { st2 with isTranslating := false }

/-- The actual try-block body: the reverse walk applies the inverse
lookup and records nothing (line 57 guards the store with `!isReverse`);
the forward walk applies the forward lookup and records the mutated
fragments. The embedded walk is total, so it never produces an error. -/
def realWalk (L inv : Str → Option Str) (isReverse : Bool) (t : DNode) :
    Except Unit (DNode × List Str) :=
  if isReverse then .ok (walk inv t, [])
  else .ok (walk L t, collect L t)

/-- The function `translate` (lines 78–107): the toggle, with forward lookup `L` and
inverse lookup `inv`. -/
def translate (L inv : Str → Option Str) (st : St) : St :=
  translateFallible (realWalk L inv) st

/-- The function `resetTranslation` (lines 109–112): a no-op unless the mode is
TRANSLATED, in which case it invokes `translate`. -/
def resetTranslation (L inv : Str → Option Str) (st : St) : St :=
  if st.isTranslated = false then st
  else translate L inv st

/-- The context value (lines 4–9): the four members exposed to
consumers, with the two operations embedded as state transformers. -/
structure TranslationContextType where
  isTranslated : Bool
  isTranslating : Bool
  translate : St → St
  resetTranslation : St → St

/-- The accessor `useTranslation` (lines 13–19): reading the context yields
`undefined` (embedded as `none`) outside a provider, in which case the
accessor throws; otherwise it returns the context value. -/
def useTranslation (ctx : Option TranslationContextType) :
    Except String TranslationContextType :=
  match ctx with
  | none => .error "useTranslation must be used within a TranslationProvider"
  | some c => .ok c

/-- A forward lookup table mapping the digit-only fragment `42` to its
Arabic-numeral translation, and everything else to itself. -/
def tbl42 : Str → Option Str :=
  fun s => if s = ['4', '2'] then some ['٤', '٢'] else some s

/-- A lookup table that swaps the word fragment `wow` with the
punctuation-only fragment `!!!`; it is its own inverse on every string. -/
def swapWowBang : Str → Str :=
  fun s =>
    if s = ['w', 'o', 'w'] then ['!', '!', '!']
    else if s = ['!', '!', '!'] then ['w', 'o', 'w']
    else s

/-- A document state in ORIGINAL mode whose root attributes are not the
values `ltr`/`en` that the toggle-back path writes. -/
def stAuto : St :=
  { isTranslated := false, isTranslating := false, originalTexts := [],
    content := .elem "MAIN" [.text ['h', 'i']], dir := "auto", lang := "fr" }

/-- A sample context value, with identity operations. -/
def sampleCtx : TranslationContextType :=
  { isTranslated := false, isTranslating := false,
    translate := fun st => st, resetTranslation := fun st => st }

example : walk (fun s => some s) (.elem "P" [.text ['h', 'i']]) =
    .elem "P" [.text ['h', 'i']] := by decide

example : walk (fun _ => some ['X']) (.elem "P" [.text [' ', 'h', 'i', ' ']]) =
    .elem "P" [.text [' ', 'X', ' ']] := by decide

example : walk (fun _ => some ['X']) (.elem "SCRIPT" [.text ['h', 'i']]) =
    .elem "SCRIPT" [.text ['h', 'i']] := by decide

example : jsTrim [' ', 'a', ' '] = ['a'] := by decide

example : symbolOnly ['4', '2'] = false := by decide

example : symbolOnly ['!', '!', '!'] = true := by decide

/-! Whitespace bookkeeping: how `jsTrim`, `leadingSpace` and
`trailingSpace` decompose a payload, and how they behave on a payload of
the shape `lead ++ core ++ trail`. -/

theorem takeWhile_append_all {p : Char → Bool} {l₁ l₂ : Str}
    (h : ∀ c ∈ l₁, p c = true) :
    (l₁ ++ l₂).takeWhile p = l₁ ++ l₂.takeWhile p := by
  induction l₁ with
  | nil => simp
  | cons a as ih =>
    have ha := h a (by simp)
    simp only [List.cons_append, List.takeWhile_cons, ha, if_true]
    rw [ih (fun c hc => h c (by simp [hc]))]

theorem dropWhile_append_all {p : Char → Bool} {l₁ l₂ : Str}
    (h : ∀ c ∈ l₁, p c = true) :
    (l₁ ++ l₂).dropWhile p = l₂.dropWhile p := by
  induction l₁ with
  | nil => simp
  | cons a as ih =>
    have ha := h a (by simp)
    simp only [List.cons_append, List.dropWhile_cons, ha, if_true]
    exact ih (fun c hc => h c (by simp [hc]))

theorem takeWhile_append_of_drop_ne_nil {p : Char → Bool} :
    ∀ {l₁ : Str}, l₁.dropWhile p ≠ [] → ∀ l₂ : Str,
      (l₁ ++ l₂).takeWhile p = l₁.takeWhile p := by
  intro l₁
  induction l₁ with
  | nil => intro h; simp at h
  | cons a as ih =>
    intro h l₂
    by_cases hp : p a = true
    · rw [List.dropWhile_cons, if_pos hp] at h
      rw [List.cons_append, List.takeWhile_cons, List.takeWhile_cons,
        if_pos hp, if_pos hp, ih h l₂]
    · rw [List.cons_append, List.takeWhile_cons, List.takeWhile_cons,
        if_neg hp, if_neg hp]

theorem dropWhile_head_false {p : Char → Bool} {l : Str} {c : Char}
    {cs : Str} (h : l.dropWhile p = c :: cs) : p c = false := by
  have h2 := List.head?_dropWhile_not p l
  rw [h] at h2
  simpa using h2

theorem leadingSpace_space (s : Str) :
    ∀ c ∈ leadingSpace s, jsIsSpace c = true := by
  intro c hc
  exact List.mem_takeWhile_imp hc

theorem trailingSpace_space (s : Str) :
    ∀ c ∈ trailingSpace s, jsIsSpace c = true := by
  intro c hc
  rw [trailingSpace, List.mem_reverse] at hc
  exact List.mem_takeWhile_imp hc

/-- The part that `jsTrim` removes at the right end of
`s.dropWhile jsIsSpace`: the dropped prefix reconstructs as the trimmed
core followed by a whitespace run. -/
theorem dropWhile_eq_trim_append (s : Str) :
    s.dropWhile jsIsSpace =
      jsTrim s ++ ((s.dropWhile jsIsSpace).reverse.takeWhile jsIsSpace).reverse := by
  conv_lhs => rw [← List.reverse_reverse (s.dropWhile jsIsSpace)]
  conv_lhs =>
    rw [← List.takeWhile_append_dropWhile jsIsSpace (s.dropWhile jsIsSpace).reverse]
  rw [List.reverse_append]
  rfl

/-- The first character of a nonempty trimmed payload is not whitespace. -/
theorem jsTrim_head_not_space {s : Str} {c : Char} {cs : Str}
    (h : jsTrim s = c :: cs) : jsIsSpace c = false := by
  have hd := dropWhile_eq_trim_append s
  rw [h] at hd
  exact dropWhile_head_false hd

/-- The last character of a nonempty trimmed payload is not whitespace. -/
theorem jsTrim_last_not_space {s : Str} {c : Char} {cs : Str}
    (h : jsTrim s = cs ++ [c]) : jsIsSpace c = false := by
  have hrev : ((s.dropWhile jsIsSpace).reverse.dropWhile jsIsSpace) =
      c :: cs.reverse := by
    have : jsTrim s = ((s.dropWhile jsIsSpace).reverse.dropWhile jsIsSpace).reverse :=
      rfl
    rw [this] at h
    have := congrArg List.reverse h
    simpa using this
  exact dropWhile_head_false hrev

/-- A payload whose first and last characters are not whitespace is its
own trim. -/
theorem jsTrim_of_flanked {c d : Char} {cs ds : Str}
    (h1 : c :: cs = ds ++ [d]) (hc : jsIsSpace c = false)
    (hd : jsIsSpace d = false) : jsTrim (c :: cs) = c :: cs := by
  have hrevcore : (c :: cs).reverse = d :: ds.reverse := by rw [h1]; simp
  rw [jsTrim, List.dropWhile_cons, if_neg (by simp [hc]), hrevcore,
    List.dropWhile_cons, if_neg (by simp [hd]), ← hrevcore,
    List.reverse_reverse]

/-- Trimming is idempotent. -/
theorem jsTrim_idem (s : Str) : jsTrim (jsTrim s) = jsTrim s := by
  rcases h : jsTrim s with _ | ⟨c, cs⟩
  · rfl
  · rcases List.eq_nil_or_concat' (c :: cs) with h2 | ⟨ds, d, h2⟩
    · simp at h2
    · exact jsTrim_of_flanked h2 (jsTrim_head_not_space h)
        (jsTrim_last_not_space (h.trans h2))

/-- A nonempty trimmed core decomposes the payload: the payload is its
leading whitespace run, its trim and its trailing whitespace run. -/
theorem trim_split {s : Str} (h : jsTrim s ≠ []) :
    leadingSpace s ++ jsTrim s ++ trailingSpace s = s := by
  have hdrop : (s.dropWhile jsIsSpace).reverse.dropWhile jsIsSpace ≠ [] := by
    intro hb
    apply h
    rw [jsTrim, hb]
    rfl
  have htail : trailingSpace s =
      ((s.dropWhile jsIsSpace).reverse.takeWhile jsIsSpace).reverse := by
    rw [trailingSpace]
    congr 1
    conv_lhs => rw [← List.takeWhile_append_dropWhile jsIsSpace s,
      List.reverse_append]
    rw [takeWhile_append_of_drop_ne_nil hdrop]
  rw [htail, List.append_assoc, ← dropWhile_eq_trim_append s, leadingSpace,
    List.takeWhile_append_dropWhile]

/-- Walking a payload of the shape `lead ++ core ++ trail`, with `lead`
and `trail` whitespace and `core` nonempty and trimmed: the trim
recovers `core` and the whitespace captures recover `lead` and
`trail`. -/
theorem trim_flanked {lead core trail : Str}
    (hl : ∀ c ∈ lead, jsIsSpace c = true)
    (ht : ∀ c ∈ trail, jsIsSpace c = true)
    (hb : core ≠ []) (htr : jsTrim core = core) :
    jsTrim (lead ++ core ++ trail) = core ∧
      leadingSpace (lead ++ core ++ trail) = lead ∧
      trailingSpace (lead ++ core ++ trail) = trail := by
  rcases core with _ | ⟨c, cs⟩
  · exact absurd rfl hb
  rcases List.eq_nil_or_concat' (c :: cs) with h2 | ⟨ds, d, h2⟩
  · simp at h2
  have hc : jsIsSpace c = false := jsTrim_head_not_space htr
  have hdlast : jsIsSpace d = false := jsTrim_last_not_space (htr.trans h2)
  have htrev : ∀ x ∈ trail.reverse, jsIsSpace x = true := by
    intro x hx
    exact ht x (List.mem_reverse.mp hx)
  have hrevcore : (c :: cs).reverse = d :: ds.reverse := by rw [h2]; simp
  have hdropmid : ((c :: cs) ++ trail).dropWhile jsIsSpace = (c :: cs) ++ trail := by
    rw [List.cons_append, List.dropWhile_cons, if_neg (by simp [hc])]
  have hrevall : ((c :: cs) ++ trail).reverse = trail.reverse ++ (d :: ds.reverse) := by
    rw [List.reverse_append, hrevcore]
  refine ⟨?_, ?_, ?_⟩
  · rw [jsTrim, List.append_assoc, dropWhile_append_all hl, hdropmid, hrevall,
      dropWhile_append_all htrev, List.dropWhile_cons,
      if_neg (by simp [hdlast]), ← hrevcore, List.reverse_reverse]
  · rw [leadingSpace, List.append_assoc, takeWhile_append_all hl,
      List.cons_append, List.takeWhile_cons, if_neg (by simp [hc]),
      List.append_nil]
  · rw [trailingSpace, List.append_assoc, List.reverse_append, hrevall,
      List.append_assoc, List.cons_append, takeWhile_append_all htrev,
      List.takeWhile_cons, if_neg (by simp [hdlast]), List.append_nil,
      List.reverse_reverse]

/-! Evaluation lemmas for the leaf text pass. -/

theorem processText_of_trim_nil {tr : Str → Option Str} {payload : Str}
    (h : jsTrim payload = []) : processText tr payload = payload := by
  simp [processText, h]

theorem processText_of_symbolOnly {tr : Str → Option Str} {payload : Str}
    (h : symbolOnly (jsTrim payload) = true) :
    processText tr payload = payload := by
  by_cases h0 : jsTrim payload = []
  · simp [processText, h0]
  · simp [processText, h0, h]

theorem length_not_lt_one {payload : Str} (h0 : jsTrim payload ≠ []) :
    ¬ (jsTrim payload).length < 1 := by
  have := List.length_pos.mpr h0
  omega

theorem processText_of_none {tr : Str → Option Str} {payload : Str}
    (h : tr (jsTrim payload) = none) : processText tr payload = payload := by
  by_cases h0 : jsTrim payload = []
  · simp [processText, h0]
  · by_cases h1 : symbolOnly (jsTrim payload) = true
    · simp [processText, h0, h1]
    · simp [processText, h0, h1, length_not_lt_one h0, h]

theorem processText_eval {tr : Str → Option Str} {payload cand : Str}
    (h0 : jsTrim payload ≠ []) (h1 : symbolOnly (jsTrim payload) = false)
    (h : tr (jsTrim payload) = some cand) :
    processText tr payload =
      if cand = jsTrim payload then payload
      else leadingSpace payload ++ cand ++ trailingSpace payload := by
  simp [processText, h0, h1, length_not_lt_one h0, h]

/-- One payload, forward then reverse: under the stated conditions on
the lookup pair, the leaf text pass undoes itself. -/
theorem processText_roundtrip (L inv : Str → Str)
    (H0 : ∀ s, jsTrim s = s → inv (L s) = s)
    (H1 : ∀ s, jsTrim s = s → s ≠ [] → symbolOnly s = false → L s ≠ s →
      L s ≠ [] ∧ jsTrim (L s) = L s ∧ symbolOnly (L s) = false)
    (payload : Str) :
    processText (fun s => some (inv s))
      (processText (fun s => some (L s)) payload) = payload := by
  by_cases h0 : jsTrim payload = []
  · rw [processText_of_trim_nil h0, processText_of_trim_nil h0]
  · have hTT : jsTrim (jsTrim payload) = jsTrim payload := jsTrim_idem payload
    by_cases h1 : symbolOnly (jsTrim payload) = true
    · rw [processText_of_symbolOnly h1, processText_of_symbolOnly h1]
    · have h1f : symbolOnly (jsTrim payload) = false := by simpa using h1
      by_cases hL : L (jsTrim payload) = jsTrim payload
      · have hfwd : processText (fun s => some (L s)) payload = payload := by
          rw [processText_eval h0 h1f
            (show (fun s => some (L s)) (jsTrim payload) =
              some (L (jsTrim payload)) from rfl), if_pos hL]
        have hinv : inv (jsTrim payload) = jsTrim payload := by
          have hi := H0 (jsTrim payload) hTT
          rwa [hL] at hi
        rw [hfwd, processText_eval h0 h1f
          (show (fun s => some (inv s)) (jsTrim payload) =
            some (inv (jsTrim payload)) from rfl), if_pos hinv]
      · obtain ⟨hne, htrm, hsym⟩ := H1 (jsTrim payload) hTT h0 h1f hL
        obtain ⟨hq_trim, hq_lead, hq_trail⟩ :=
          trim_flanked (leadingSpace_space payload) (trailingSpace_space payload)
            hne htrm
        have hfwd : processText (fun s => some (L s)) payload =
            leadingSpace payload ++ L (jsTrim payload) ++ trailingSpace payload := by
          rw [processText_eval h0 h1f
            (show (fun s => some (L s)) (jsTrim payload) =
              some (L (jsTrim payload)) from rfl), if_neg hL]
        have hinv : inv (L (jsTrim payload)) = jsTrim payload :=
          H0 (jsTrim payload) hTT
        have hq0 : jsTrim (leadingSpace payload ++ L (jsTrim payload) ++
            trailingSpace payload) ≠ [] := by
          rw [hq_trim]; exact hne
        have hq1 : symbolOnly (jsTrim (leadingSpace payload ++ L (jsTrim payload) ++
            trailingSpace payload)) = false := by
          rw [hq_trim]; exact hsym
        rw [hfwd, processText_eval hq0 hq1
          (show (fun s => some (inv s)) (jsTrim (leadingSpace payload ++
              L (jsTrim payload) ++ trailingSpace payload)) =
            some (inv (jsTrim (leadingSpace payload ++ L (jsTrim payload) ++
              trailingSpace payload))) from rfl), hq_trim, hinv,
          if_neg (fun hh => hL hh.symm), hq_lead, hq_trail]
        exact trim_split h0

/-! The walk as a structure-preserving map, and the tree-level round
trip. -/

theorem walkList_eq_map (tr : Str → Option Str) (cs : List DNode) :
    walkList tr cs = cs.map (walk tr) := by
  induction cs with
  | nil => rfl
  | cons c rest ih => rw [walkList, List.map_cons, ih]

theorem walk_roundtrip_aux (L inv : Str → Str)
    (H0 : ∀ s, jsTrim s = s → inv (L s) = s)
    (H1 : ∀ s, jsTrim s = s → s ≠ [] → symbolOnly s = false → L s ≠ s →
      L s ≠ [] ∧ jsTrim (L s) = L s ∧ symbolOnly (L s) = false) :
    ∀ n, ∀ t : DNode, sizeOf t ≤ n →
      walk (fun s => some (inv s)) (walk (fun s => some (L s)) t) = t := by
  intro n
  induction n with
  | zero =>
    intro t ht
    exfalso
    cases t <;> simp at ht
  | succ n ih =>
    intro t ht
    cases t with
    | text payload =>
      rw [walk, walk]
      exact congrArg DNode.text (processText_roundtrip L inv H0 H1 payload)
    | elem tag cs =>
      by_cases hx : excludedTag tag = true
      · rw [walk, if_pos hx, walk, if_pos hx]
      · rw [walk, if_neg hx, walk, if_neg hx, walkList_eq_map, walkList_eq_map,
          List.map_map]
        congr 1
        have hmem : ∀ c ∈ cs,
            (walk (fun s => some (inv s)) ∘ walk (fun s => some (L s))) c = id c := by
          intro c hc
          simp only [Function.comp_apply, id_eq]
          apply ih
          have hlt := List.sizeOf_lt_of_mem hc
          have hsz : sizeOf (DNode.elem tag cs) = 1 + sizeOf tag + sizeOf cs := by
            simp
          omega
        rw [List.map_congr_left hmem, List.map_id]

/-- C1 (corrected): forward walk followed by reverse walk over the same
subtree restores the whole tree — hence in particular every mutated
payload, whitespace runs included — provided, beyond the claimed
hypothesis that `inv` inverts `L` on trimmed fragments, that every
candidate `L s` actually substituted is nonempty, is its own trim, and
is not matched by the symbol-only exclusion pattern. Without the extra
hypotheses the reverse walk can skip or mis-trim a substituted fragment
(see the counterexample). -/
theorem c1_amended_roundtrip (L inv : Str → Str)
    (H0 : ∀ s, jsTrim s = s → inv (L s) = s)
    (H1 : ∀ s, jsTrim s = s → s ≠ [] → symbolOnly s = false → L s ≠ s →
      L s ≠ [] ∧ jsTrim (L s) = L s ∧ symbolOnly (L s) = false)
    (t : DNode) :
    walk (fun s => some (inv s)) (walk (fun s => some (L s)) t) = t :=
  walk_roundtrip_aux L inv H0 H1 (sizeOf t) t le_rfl

/-- Witness for C1: with the identical lookup pair, whose hypotheses
hold trivially, the round trip restores a concrete tree. -/
theorem c1_amended_roundtrip_witness :
    walk (fun s => some s) (walk (fun s => some s)
      (DNode.elem "P" [DNode.text ['w', 'o', 'w']])) =
      DNode.elem "P" [DNode.text ['w', 'o', 'w']] :=
  c1_amended_roundtrip (fun s => s) (fun s => s) (fun _ _ => rfl)
    (fun _ _ _ _ hLs => absurd rfl hLs)
    (DNode.elem "P" [DNode.text ['w', 'o', 'w']])

/-- Counterexample to C1 as stated: `swapWowBang` is its own inverse on
every string (so the inverse-lookup hypothesis holds on all trimmed
fragments), the Forward walk mutates the payload `wow` to `!!!`, yet the
Reverse walk does not restore it: `!!!` matches the symbol-only
exclusion pattern and is skipped. -/
theorem c1_counterexample :
    (∀ s : Str, jsTrim s = s → swapWowBang (swapWowBang s) = s) ∧
      walk (fun s => some (swapWowBang s))
        (walk (fun s => some (swapWowBang s))
          (DNode.elem "P" [DNode.text ['w', 'o', 'w']])) ≠
        DNode.elem "P" [DNode.text ['w', 'o', 'w']] := by
  constructor
  · intro s _
    by_cases h1 : s = ['w', 'o', 'w']
    · subst h1; decide
    · by_cases h2 : s = ['!', '!', '!']
      · subst h2; decide
      · simp [swapWowBang, h1, h2]
  · decide

/-- C2 (code bug): the inline comment of line 43 and the spec promise
that digit-only fragments are skipped, but the exclusion pattern
`^[^\w\s؀-ۿ]*$` classes the digits with the word characters,
so `42` is not matched by it; a forward walk therefore passes `42` to
the lookup and mutates the payload as soon as the table has an entry
for it. -/
theorem c2_digit_exclusion_bug :
    symbolOnly ['4', '2'] = false ∧
      walk tbl42 (DNode.elem "P" [DNode.text ['4', '2']]) =
        DNode.elem "P" [DNode.text ['٤', '٢']] := by
  constructor
  · decide
  · decide

/-- C4 (confirmed): for any lookup direction, the subtree rooted at an
element with an excluded tag is returned untouched by the walk, at
whatever position of the tree it sits — in particular every text node
inside it keeps its payload. -/
theorem c4_excluded_subtree_unchanged (tr : Str → Option Str) :
    ∀ (path : List Nat) (t : DNode) (tag : String) (children : List DNode),
      nodeAt t path = some (.elem tag children) → excludedTag tag = true →
        nodeAt (walk tr t) path = some (.elem tag children) := by
  intro path
  induction path with
  | nil =>
    intro t tag children h hx
    simp only [nodeAt, Option.some.injEq] at h
    subst h
    rw [walk, if_pos hx]
    rfl
  | cons i p ih =>
    intro t tag children h hx
    cases t with
    | text payload => simp [nodeAt] at h
    | elem tg cs =>
      by_cases hx2 : excludedTag tg = true
      · rw [walk, if_pos hx2]
        exact h
      · rw [walk, if_neg hx2, walkList_eq_map]
        simp only [nodeAt, List.getElem?_map] at h ⊢
        rcases hcs : cs[i]? with _ | c
        · rw [hcs] at h
          exact Option.noConfusion h
        · rw [hcs] at h
          exact ih c tag children h hx


/-- Witness for C4: a `SCRIPT` child, reachable at index 0, is untouched
by a walk whose lookup would rewrite every fragment. -/
theorem c4_witness :
    nodeAt (walk (fun _ => some ['X'])
      (DNode.elem "DIV" [DNode.elem "SCRIPT" [DNode.text ['h', 'i']]])) [0] =
      some (DNode.elem "SCRIPT" [DNode.text ['h', 'i']]) :=
  c4_excluded_subtree_unchanged (fun _ => some ['X']) [0]
    (DNode.elem "DIV" [DNode.elem "SCRIPT" [DNode.text ['h', 'i']]])
    "SCRIPT" [DNode.text ['h', 'i']] (by decide) (by decide)

/-- C5 (confirmed): for a visited text node (trimmed payload nonempty
and not excluded) whose lookup succeeds, a candidate differing from the
trimmed payload rewrites the payload to exactly the leading whitespace
run of the untrimmed payload, the candidate, then the trailing
whitespace run; a candidate equal to the trimmed payload leaves the
payload unchanged. -/
theorem c5_whitespace_preserving_substitution (tr : Str → Option Str)
    (payload cand : Str) (h0 : jsTrim payload ≠ [])
    (h1 : symbolOnly (jsTrim payload) = false)
    (h : tr (jsTrim payload) = some cand) :
    (cand ≠ jsTrim payload →
      processText tr payload =
        leadingSpace payload ++ cand ++ trailingSpace payload) ∧
    (cand = jsTrim payload → processText tr payload = payload) := by
  constructor
  · intro hne
    rw [processText_eval h0 h1 h, if_neg hne]
  · intro heq
    rw [processText_eval h0 h1 h, if_pos heq]

/-- Witness for C5: the payload ` hi ` with candidate `X` becomes
` X `. -/
theorem c5_witness :
    processText (fun _ => some ['X']) [' ', 'h', 'i', ' '] = [' ', 'X', ' '] := by
  rw [(c5_whitespace_preserving_substitution (fun _ => some ['X'])
    [' ', 'h', 'i', ' '] ['X'] (by decide) (by decide) rfl).1 (by decide)]
  decide

/-- C7 (confirmed): a lookup failure on one fragment (embedded as a
`none` result, the thrown exception of the source being caught at lines
66–68) leaves that fragment's payload unmodified, and the walk continues
with the remaining siblings. -/
theorem c7_fragment_failure_caught (tr : Str → Option Str)
    (payload : Str) (rest : List DNode)
    (h : tr (jsTrim payload) = none) :
    processText tr payload = payload ∧
      walkList tr (.text payload :: rest) = .text payload :: walkList tr rest := by
  have hp : processText tr payload = payload := processText_of_none h
  refine ⟨hp, ?_⟩
  rw [walkList, walk, hp]

/-- Witness for C7: a lookup that always throws leaves the fragment in
place and the walk reaches the next sibling. -/
theorem c7_witness :
    processText (fun _ => none) ['h', 'i'] = ['h', 'i'] ∧
      walkList (fun _ => none) [.text ['h', 'i'], .text ['y']] =
        [DNode.text ['h', 'i'], DNode.text ['y']] := by
  have h := c7_fragment_failure_caught (fun _ => none) ['h', 'i']
    [.text ['y']] rfl
  refine ⟨h.1, ?_⟩
  rw [h.2]
  decide

/-- Counterexample to C3 as stated: starting from ORIGINAL mode with
root attributes `auto`/`fr`, a toggle to TRANSLATED followed by a toggle
back to ORIGINAL leaves the direction attribute at the constant `ltr`,
not at the original value `auto`: the attributes are not restored to
whatever they were before the first toggle. -/
theorem c3_counterexample :
    (translate (fun s => some s) (fun s => some s) stAuto).isTranslated = true ∧
      (translate (fun s => some s) (fun s => some s)
        (translate (fun s => some s) (fun s => some s) stAuto)).isTranslated =
        false ∧
      (translate (fun s => some s) (fun s => some s)
        (translate (fun s => some s) (fun s => some s) stAuto)).dir ≠
        stAuto.dir := by
  refine ⟨by decide, by decide, by decide⟩

/-- C3 (corrected): after a toggle from a quiescent ORIGINAL state the
direction attribute is the right-to-left constant `rtl` and the locale
attribute is the target locale `ar`; after a subsequent toggle back to
ORIGINAL the attributes are set to the fixed constants `ltr` and `en` —
which coincide with the pre-toggle values only when those were already
`ltr` and `en`. -/
theorem c3_amended_attributes (L inv : Str → Option Str) (st : St)
    (h0 : st.isTranslating = false) (h1 : st.isTranslated = false) :
    (translate L inv st).isTranslated = true ∧
      (translate L inv st).dir = "rtl" ∧
      (translate L inv st).lang = "ar" ∧
      (translate L inv (translate L inv st)).isTranslated = false ∧
      (translate L inv (translate L inv st)).dir = "ltr" ∧
      (translate L inv (translate L inv st)).lang = "en" := by
  obtain ⟨tA, tG, oT, ct, di, la⟩ := st
  have h2 : tG = false := h0
  have h3 : tA = false := h1
  subst h2
  subst h3
  exact ⟨rfl, rfl, rfl, rfl, rfl, rfl⟩

/-- Witness for C3: the amended attribute behaviour at the concrete
state `stAuto`. -/
theorem c3_witness :
    (translate (fun s => some s) (fun s => some s) stAuto).isTranslated = true ∧
      (translate (fun s => some s) (fun s => some s) stAuto).dir = "rtl" ∧
      (translate (fun s => some s) (fun s => some s) stAuto).lang = "ar" ∧
      (translate (fun s => some s) (fun s => some s)
        (translate (fun s => some s) (fun s => some s) stAuto)).isTranslated =
        false ∧
      (translate (fun s => some s) (fun s => some s)
        (translate (fun s => some s) (fun s => some s) stAuto)).dir = "ltr" ∧
      (translate (fun s => some s) (fun s => some s)
        (translate (fun s => some s) (fun s => some s) stAuto)).lang = "en" :=
  c3_amended_attributes (fun s => some s) (fun s => some s) stAuto rfl rfl

/-- C6 (confirmed): a `toggle()` issued while another toggle is in
flight returns at the guard of line 79 and changes nothing — no payload,
no attribute, no mode, no record. -/
theorem c6_reentrancy_guard (L inv : Str → Option Str) (st : St)
    (h : st.isTranslating = true) : translate L inv st = st := by
  rw [translate, translateFallible, if_pos h]

/-- Witness for C6: the guard at a concrete in-flight state. -/
theorem c6_witness :
    translate (fun s => some s) (fun s => some s)
      { stAuto with isTranslating := true } =
      { stAuto with isTranslating := true } :=
  c6_reentrancy_guard (fun s => some s) (fun s => some s)
    { stAuto with isTranslating := true } rfl

/-- C8 (confirmed): when the try-block body throws past the walk, the
error is swallowed by the catch of lines 102–103; the finally of lines
104–106 leaves the in-flight flag cleared on every exit path, and the
state — mode, attributes, payloads, record — is exactly as before the
call, since those writes only happen after the walk returns. -/
theorem c8_whole_toggle_failure
    (walkF : Bool → DNode → Except Unit (DNode × List Str)) (st : St)
    (h : st.isTranslating = false) :
    (translateFallible walkF st).isTranslating = false ∧
      (walkF st.isTranslated st.content = .error () →
        translateFallible walkF st = st) := by
  obtain ⟨tA, tG, oT, ct, di, la⟩ := st
  have h2 : tG = false := h
  subst h2
  constructor
  · cases tA
    · rcases hw : walkF false ct with e | ⟨c, recs⟩ <;>
        simp [translateFallible, hw]
    · rcases hw : walkF true ct with e | ⟨c, recs⟩ <;>
        simp [translateFallible, hw]
  · intro herr
    cases tA
    · simp [translateFallible, herr]
    · simp [translateFallible, herr]

/-- Witness for C8: a walk that always throws leaves the concrete state
`stAuto` exactly as it was, in-flight flag clear. -/
theorem c8_witness :
    (translateFallible (fun _ _ => .error ()) stAuto).isTranslating = false ∧
      (translateFallible (fun _ _ => .error ()) stAuto = stAuto) := by
  have h := c8_whole_toggle_failure (fun _ _ => .error ()) stAuto rfl
  exact ⟨h.1, h.2 rfl⟩

/-- C9 (confirmed): `resetTranslation` returns immediately when the mode
is ORIGINAL, changing nothing; from any TRANSLATED state it calls
`translate` itself (line 111), so the two operations are the same state
transformation there. -/
theorem c9_reset_equals_toggle (L inv : Str → Option Str) (st : St) :
    (st.isTranslated = false → resetTranslation L inv st = st) ∧
      (st.isTranslated = true →
        resetTranslation L inv st = translate L inv st) := by
  constructor
  · intro h
    rw [resetTranslation, if_pos h]
  · intro h
    rw [resetTranslation, if_neg (by simp [h])]

/-- Witness for C9: the no-op branch at the concrete ORIGINAL state
`stAuto`. -/
theorem c9_witness :
    resetTranslation (fun s => some s) (fun s => some s) stAuto = stAuto :=
  (c9_reset_equals_toggle (fun s => some s) (fun s => some s) stAuto).1 rfl

/-- C10 (confirmed): outside a provider the context value is absent and
the accessor throws; every successful call returns exactly the provided
context value, which carries the four members by construction. -/
theorem c10_useTranslation_guard (ctx : Option TranslationContextType) :
    (ctx = none → useTranslation ctx =
      .error "useTranslation must be used within a TranslationProvider") ∧
      (∀ c, useTranslation ctx = .ok c → ctx = some c) := by
  constructor
  · intro h
    subst h
    rfl
  · intro c h
    cases ctx with
    | none => exact Except.noConfusion h
    | some d =>
      have h2 : Except.ok d = Except.ok c := h
      cases h2
      rfl

/-- Witness for C10: the throw at the absent context. -/
theorem c10_witness :
    useTranslation (none : Option TranslationContextType) =
      .error "useTranslation must be used within a TranslationProvider" :=
  (c10_useTranslation_guard none).1 rfl

end TranslationContext
